import Mathlib

/-!
Verification of the profit/loss calculator (`calculate_pl.js` and
`calculate_profit_loss.js`): a shallow embedding of the typed record
model, the chronological sort, the moving-average cost-basis engine and
the CSV output assembly, together with theorems settling the
specification claims.

Embedding conventions:
* JS floating-point numbers are embedded as exact rationals `ℚ`.
* Trade dates are embedded as integer timestamps `ℤ` (epoch = 0).
* `toFixed(2)` is embedded as rounding to an integer number of cents,
  ties away from zero, following the ECMA `toFixed` algorithm (which
  takes the absolute value first and picks the larger candidate on ties).
* The per-instrument `positions` dictionary is embedded as a total
  function `String → ℚ × ℚ` defaulting to `(0, 0)`: the source creates a
  `{quantity: 0, totalCost: 0}` entry on first touch, so the lazily
  created dictionary and the total function are observationally equal.
* The `profitLossByIndex` array (prefilled with `''` and indexed by
  `originalIndex`, out-of-range reads defaulted by `?? ''`) is embedded
  as a total function `ℕ → Option ℤ` defaulting to `none`, where `none`
  stands for the empty string and `some n` for a profit/loss of `n`
  cents.
-/

namespace ProfitLoss

/-- One typed trade row: the fields `parseRecords` (`calculate_pl.js`
lines 53-73) extracts from a CSV line, without the `originalIndex`. -/
structure Row where
  cols : List String
  asxCode : String
  orderType : String
  tradeDate : ℤ
  avgPrice : ℚ
  quantity : ℚ
  deriving DecidableEq

/-- A parsed record: a row together with its 0-based position in input
order (`originalIndex` in the source). -/
structure TradeRec where
  row : Row
  originalIndex : ℕ
  deriving DecidableEq

/-- The part of the resolved column information the sort and the engine
consume: the index of the optional `Confirmation Number` column.
`ensureRequiredColumns` stores `-1` when the column is absent, embedded
here as `none`. -/
structure ColumnInfo where
  confirmationIdx : Option ℕ
  deriving DecidableEq

/-- `parseRecords` pairs each data row with its 0-based offset. -/
def mkRecords (rows : List Row) : List TradeRec :=
  rows.enum.map fun p => ⟨p.2, p.1⟩

/-- Per-instrument running state: instrument code ↦ (quantity, totalCost). -/
def Positions : Type := String → ℚ × ℚ

/-- Fresh `positions` map: every code reads as `(0, 0)`. -/
def emptyPositions : Positions := fun _ => (0, 0)

/-- Result store: `originalIndex` ↦ optional profit/loss in cents. -/
def Results : Type := ℕ → Option ℤ

/-- Fresh `profitLossByIndex` array: every slot reads as blank. -/
def emptyResults : Results := fun _ => none

/-- The accounting errors thrown by `calculateProfitLossForRecords`,
each naming the offending instrument code. -/
inductive EngineError where
  | nonPositiveSellQuantity (code : String)
  | noExistingPosition (code : String)
  | oversoldPosition (code : String)
  deriving DecidableEq

/-- The quantity tolerance `1e-8` of the source. -/
def tolQty : ℚ := 1 / 100000000

/-- The cost tolerance `1e-6` of the source. -/
def tolCost : ℚ := 1 / 1000000

/-- `/^buy$/i.test s`: the whole field matches the literal `buy` up to
letter case (case-insensitive regex embedded as comparison of the
case-folded character list); no trimming, no quote stripping. -/
def isBuy (s : String) : Bool := s.data.map Char.toLower == "buy".data

/-- `/^sell$/i.test s`: the whole field matches the literal `sell` up to
letter case; no trimming, no quote stripping. -/
def isSell (s : String) : Bool := s.data.map Char.toLower == "sell".data

/-- `x.toFixed(2)` as a count of cents: ECMA `toFixed` takes the
absolute value first and on a tie picks the larger candidate, so the
embedded rounding is round-half-away-from-zero at two decimals. -/
def roundCents (x : ℚ) : ℤ :=
  if x < 0 then -round (-x * 100) else round (x * 100)

/-- Point update of the positions map. -/
def updateAt (pos : Positions) (code : String) (p : ℚ × ℚ) : Positions :=
  fun c => if c = code then p else pos c

/-- Point update of the result store. -/
def writeResult (res : Results) (i : ℕ) (v : ℤ) : Results :=
  fun n => if n = i then some v else res n

/-- The body of the `for` loop of `calculateProfitLossForRecords`
(`calculate_pl.js` lines 96-139): one record mutates the positions map
and possibly the result store, or throws. -/
def processRecord (pos : Positions) (res : Results) (r : TradeRec) :
    Except EngineError (Positions × Results) :=
  let code := r.row.asxCode
  if code = "" then .ok (pos, res)
  else
    let p := pos code
    if isBuy r.row.orderType then
      .ok (updateAt pos code
            (p.1 + r.row.quantity, p.2 + r.row.avgPrice * r.row.quantity), res)
    else if isSell r.row.orderType then
      if r.row.quantity ≤ 0 then
        .error (.nonPositiveSellQuantity code)
      else if p.1 ≤ 0 ∨ p.2 ≤ 0 then
        .error (.noExistingPosition code)
      else if r.row.quantity - p.1 > tolQty then
        .error (.oversoldPosition code)
      else
        let averageCostPerShare := p.2 / p.1
        let proceeds := r.row.avgPrice * r.row.quantity
        let costBasis := averageCostPerShare * r.row.quantity
        let profitLoss := proceeds - costBasis
        let newQty := p.1 - r.row.quantity
        let newCost := p.2 - costBasis
        let snappedQty := if |newQty| < tolQty then 0 else newQty
        let snappedCost := if |newCost| < tolCost then 0 else newCost
        .ok (updateAt pos code (snappedQty, snappedCost),
             writeResult res r.originalIndex (roundCents profitLoss))
    else .ok (pos, res)

/-- The whole `for` loop: threads the state through the record list,
aborting on the first error. -/
def runRecords : Positions → Results → List TradeRec →
    Except EngineError (Positions × Results)
  | pos, res, [] => .ok (pos, res)
  | pos, res, r :: rest =>
    match processRecord pos res r with
    | .error e => .error e
    | .ok (pos', res') => runRecords pos' res' rest

/-- The `Confirmation Number` field of a row as the sort comparator
reads it: `cols[confirmationIdx] || ''` (missing or empty field reads as
`''`; when the column is absent from the schema the comparator never
reads it, which the uniform `""` default reproduces exactly). -/
def rowConf (ci : ColumnInfo) (w : Row) : String :=
  match ci.confirmationIdx with
  | some cIdx => w.cols.getD cIdx ""
  | none => ""

/-- The confirmation field of a record. -/
def confKey (ci : ColumnInfo) (r : TradeRec) : String := rowConf ci r.row

/-- The sort comparator of `sortRecords` (`calculate_pl.js` lines
76-89) as a total order (`a` sorts no later than `b`): trade date
ascending, then — when the confirmation column exists — the confirmation
field as text ascending (`localeCompare` embedded as ordinal string
comparison), then `originalIndex` ascending. -/
def RecLE (ci : ColumnInfo) (a b : TradeRec) : Prop :=
  a.row.tradeDate < b.row.tradeDate ∨
    (a.row.tradeDate = b.row.tradeDate ∧
      (confKey ci a < confKey ci b ∨
        (confKey ci a = confKey ci b ∧ a.originalIndex ≤ b.originalIndex)))

instance (ci : ColumnInfo) : DecidableRel (RecLE ci) := fun a b => by
  unfold RecLE
  exact inferInstance

/-- `sortRecords`: a sort of the record list by the comparator. The JS
engine sort is embedded as insertion sort: on records with pairwise
distinct `originalIndex` the comparator is a total order, so every
sorting algorithm returns the same list (proved below). -/
def sortRecords (records : List TradeRec) (ci : ColumnInfo) : List TradeRec :=
  records.insertionSort (RecLE ci)

/-- `calculateProfitLossForRecords` (`calculate_pl.js` lines 92-142):
sort chronologically, run the accounting loop from empty state, return
the per-`originalIndex` results (or the first error). -/
def calculateProfitLossForRecords (records : List TradeRec) (ci : ColumnInfo) :
    Except EngineError Results :=
  (runRecords emptyPositions emptyResults (sortRecords records ci)).map
    fun s => s.2

/-! ### The inline engine of `calculate_profit_loss.js`

The second implementation (lines 87-126 of `calculate_profit_loss.js`)
runs the same moving-average accounting inline inside `main`, with the
same sort comparator, but performs no sell validity checks: when the
prior position is not strictly positive it uses an average cost of 0,
and it never fails. -/

/-- Loop body of the inline accounting loop. -/
def processRecordInline (pos : Positions) (res : Results) (r : TradeRec) :
    Positions × Results :=
  let code := r.row.asxCode
  if code = "" then (pos, res)
  else
    let p := pos code
    if isBuy r.row.orderType then
      (updateAt pos code
        (p.1 + r.row.quantity, p.2 + r.row.avgPrice * r.row.quantity), res)
    else if isSell r.row.orderType then
      let avgCostPerShare := if 0 < p.1 ∧ 0 < p.2 then p.2 / p.1 else 0
      let proceeds := r.row.avgPrice * r.row.quantity
      let costBasis := avgCostPerShare * r.row.quantity
      let pl := proceeds - costBasis
      let newQty := p.1 - r.row.quantity
      let newCost := p.2 - costBasis
      let snappedQty := if |newQty| < tolQty then 0 else newQty
      let snappedCost := if |newCost| < tolCost then 0 else newCost
      (updateAt pos code (snappedQty, snappedCost),
       writeResult res r.originalIndex (roundCents pl))
    else (pos, res)

/-- The inline `for` loop. -/
def runRecordsInline : Positions → Results → List TradeRec → Positions × Results
  | pos, res, [] => (pos, res)
  | pos, res, r :: rest =>
    let s := processRecordInline pos res r
    runRecordsInline s.1 s.2 rest

/-- The whole inline accounting pass of `calculate_profit_loss.js`
`main`: same chronological sort, then the unchecked loop from empty
state. -/
def calculateProfitLossInline (records : List TradeRec) (ci : ColumnInfo) : Results :=
  (runRecordsInline emptyPositions emptyResults (sortRecords records ci)).2

/-! ### Field parsers (`calculate_pl.js` lines 8-27)

`toNumber` and `parseTradeDate` work on raw field text. JS runtime
primitives are embedded on their decimal/ISO fragments: `Number(text)`
as a parser of optionally signed decimal literals with optional fraction
and exponent, and `new Date(text)` as a parser of ISO `YYYY-MM-DD` dates
mapped monotonically to integer timestamps. String whitespace trimming
and global quote removal are embedded on character lists. -/

/-- The errors thrown by the field parsers. -/
inductive ParseError where
  | invalidNumber (value : String)
  | invalidDate (value : String)
  deriving DecidableEq

/-- `text.trim()`: drop whitespace from both ends. -/
def trimChars (cs : List Char) : List Char :=
  ((cs.dropWhile (fun c => c.isWhitespace)).reverse.dropWhile
    (fun c => c.isWhitespace)).reverse

/-- `value.replace(/"/g, '').trim()`: remove every quote character, then
trim. -/
def stripQuotesTrim (v : String) : List Char :=
  trimChars (v.data.filter (fun c => c ≠ '"'))

/-- Decimal digit accumulator. -/
def digitsToNat (acc : ℕ) : List Char → ℕ
  | [] => acc
  | c :: cs => digitsToNat (10 * acc + (c.toNat - 48)) cs

/-- Split off an optional leading sign; `true` means negative. -/
def parseSign : List Char → Bool × List Char
  | [] => (false, [])
  | c :: cs =>
    if c = '-' then (true, cs)
    else if c = '+' then (false, cs)
    else (false, c :: cs)

/-- Split the character list at the first `e`/`E`, if any. -/
def splitAtExp : List Char → List Char × Option (List Char)
  | [] => ([], none)
  | c :: cs =>
    if c = 'e' ∨ c = 'E' then ([], some cs)
    else
      let s := splitAtExp cs
      (c :: s.1, s.2)

/-- Unsigned mantissa: digits, an optional decimal point, digits; at
least one digit overall. -/
def parseMantissa (cs : List Char) : Option ℚ :=
  let ip := cs.takeWhile (fun c => c.isDigit)
  let rest := cs.dropWhile (fun c => c.isDigit)
  match rest with
  | [] => if ip = [] then none else some ((digitsToNat 0 ip : ℕ) : ℚ)
  | '.' :: fr =>
    if fr.all (fun c => c.isDigit) then
      if ip = [] ∧ fr = [] then none
      else some (((digitsToNat 0 ip : ℕ) : ℚ) +
        ((digitsToNat 0 fr : ℕ) : ℚ) / 10 ^ fr.length)
    else none
  | _ => none

/-- Signed integer exponent. -/
def parseExp (cs : List Char) : Option ℤ :=
  let s := parseSign cs
  if s.2 = [] then none
  else if s.2.all (fun c => c.isDigit) then
    some (if s.1 then -((digitsToNat 0 s.2 : ℕ) : ℤ) else ((digitsToNat 0 s.2 : ℕ) : ℤ))
  else none

/-- `Number(text)` on non-blank trimmed text, restricted to decimal
literals: optional sign, mantissa, optional exponent. -/
def parseNumberChars (cs : List Char) : Option ℚ :=
  let s := parseSign cs
  let me := splitAtExp s.2
  match parseMantissa me.1, me.2 with
  | none, _ => none
  | some m, none => some (if s.1 then -m else m)
  | some m, some ecs =>
    match parseExp ecs with
    | none => none
    | some e => some ((if s.1 then -m else m) * (10 : ℚ) ^ e)

/-- `toNumber` (`calculate_pl.js` lines 8-17): `undefined`/`null` and
blank text yield `0`; otherwise parse, throwing on unparsable text. -/
def toNumber (value : Option String) : Except ParseError ℚ :=
  match value with
  | none => .ok 0
  | some v =>
    let trimmed := stripQuotesTrim v
    if trimmed = [] then .ok 0
    else
      match parseNumberChars trimmed with
      | some q => .ok q
      | none => .error (.invalidNumber v)

/-- `new Date(text)` on non-blank trimmed text, restricted to ISO
`YYYY-MM-DD`: three dash-separated digit groups with month in `1..12`
and day in `1..31`, mapped to the timestamp `y*10000 + m*100 + d`
(monotone in the calendar date; every parsed date is after the epoch
sentinel `0`). -/
def parseDateChars (cs : List Char) : Option ℤ :=
  match cs.splitOn '-' with
  | [y, m, d] =>
    if y ≠ [] ∧ y.all (fun c => c.isDigit) ∧
       m ≠ [] ∧ m.all (fun c => c.isDigit) ∧
       d ≠ [] ∧ d.all (fun c => c.isDigit) ∧
       1 ≤ digitsToNat 0 m ∧ digitsToNat 0 m ≤ 12 ∧
       1 ≤ digitsToNat 0 d ∧ digitsToNat 0 d ≤ 31 then
      some (((digitsToNat 0 y : ℕ) : ℤ) * 10000 +
        ((digitsToNat 0 m : ℕ) : ℤ) * 100 + ((digitsToNat 0 d : ℕ) : ℤ))
    else none
  | _ => none

/-- `parseTradeDate` (`calculate_pl.js` lines 19-27): `String(value ||
'')`, blank yields the epoch sentinel `new Date(0)`, otherwise parse,
throwing on unparsable text. -/
def parseTradeDate (value : Option String) : Except ParseError ℤ :=
  let raw := value.getD ""
  let trimmed := trimChars raw.data
  if trimmed = [] then .ok 0
  else
    match parseDateChars trimmed with
    | some t => .ok t
    | none => .error (.invalidDate raw)

/-! ### Output assembly (`calculate_pl.js` lines 144-151)

`buildOutputCsv` appends `,ProfitLoss` to the header line and one
trailing field to every data line, in original input order. Rows are
embedded at field level (the source keeps `record.line` and
`record.cols` in sync via `parseCsvLine`); the appended field renders
`some n` cents as `toFixed(2)` text and `none` as the empty string. -/

/-- Two-digit zero padding for the cents part. -/
def pad2 (n : ℕ) : String := if n < 10 then "0" ++ toString n else toString n

/-- Render a cents count the way `toFixed(2)` prints its result. -/
def formatCents (n : ℤ) : String :=
  (if n < 0 then "-" else "") ++ toString (n.natAbs / 100) ++ "." ++ pad2 (n.natAbs % 100)

/-- The appended `ProfitLoss` field: `profitLossByIndex[i] ?? ''`. -/
def renderResult : Option ℤ → String
  | none => ""
  | some n => formatCents n

/-- `buildOutputCsv`: header with one extra column name, then one output
row per record in original (input) order, each being the record's
original fields plus exactly one appended field. -/
def buildOutputCsv (headerCols : List String) (records : List TradeRec)
    (profitLossByIndex : Results) : List (List String) :=
  (headerCols ++ ["ProfitLoss"]) ::
    records.map fun r => r.row.cols ++ [renderResult (profitLossByIndex r.originalIndex)]

/-! ### Step characterization lemmas

One lemma per branch of the loop body, used both for the general claims
and to evaluate concrete runs. -/

theorem isBuy_ne_isSell (s : String) (hs : isSell s = true) : isBuy s = false := by
  simp only [isSell, beq_iff_eq] at hs
  simp only [isBuy, hs, beq_iff_eq]
  decide

theorem processRecord_emptyCode (pos : Positions) (res : Results) (r : TradeRec)
    (h : r.row.asxCode = "") : processRecord pos res r = .ok (pos, res) := by
  simp [processRecord, h]

theorem processRecord_buy (pos : Positions) (res : Results) (r : TradeRec)
    (h : r.row.asxCode ≠ "") (hb : isBuy r.row.orderType = true) :
    processRecord pos res r = .ok
      (updateAt pos r.row.asxCode
        ((pos r.row.asxCode).1 + r.row.quantity,
         (pos r.row.asxCode).2 + r.row.avgPrice * r.row.quantity), res) := by
  simp [processRecord, h, hb]

theorem processRecord_other (pos : Positions) (res : Results) (r : TradeRec)
    (hb : isBuy r.row.orderType = false) (hs : isSell r.row.orderType = false) :
    processRecord pos res r = .ok (pos, res) := by
  by_cases h : r.row.asxCode = "" <;> simp [processRecord, h, hb, hs]

theorem processRecord_sell_nonpos (pos : Positions) (res : Results) (r : TradeRec)
    (h : r.row.asxCode ≠ "") (hs : isSell r.row.orderType = true)
    (hq : r.row.quantity ≤ 0) :
    processRecord pos res r = .error (.nonPositiveSellQuantity r.row.asxCode) := by
  simp [processRecord, h, hs, hq, isBuy_ne_isSell _ hs]

theorem processRecord_sell_noPosition (pos : Positions) (res : Results) (r : TradeRec)
    (h : r.row.asxCode ≠ "") (hs : isSell r.row.orderType = true)
    (hq : ¬r.row.quantity ≤ 0)
    (hp : (pos r.row.asxCode).1 ≤ 0 ∨ (pos r.row.asxCode).2 ≤ 0) :
    processRecord pos res r = .error (.noExistingPosition r.row.asxCode) := by
  simp only [processRecord, if_neg h, isBuy_ne_isSell _ hs, Bool.false_eq_true,
    if_false, hs, if_true, if_neg hq, if_pos hp]

theorem processRecord_sell_oversold (pos : Positions) (res : Results) (r : TradeRec)
    (h : r.row.asxCode ≠ "") (hs : isSell r.row.orderType = true)
    (hq : ¬r.row.quantity ≤ 0)
    (hp : ¬((pos r.row.asxCode).1 ≤ 0 ∨ (pos r.row.asxCode).2 ≤ 0))
    (hov : r.row.quantity - (pos r.row.asxCode).1 > tolQty) :
    processRecord pos res r = .error (.oversoldPosition r.row.asxCode) := by
  simp only [processRecord, if_neg h, isBuy_ne_isSell _ hs, Bool.false_eq_true,
    if_false, hs, if_true, if_neg hq, if_neg hp, if_pos hov]

theorem processRecord_sell_ok (pos : Positions) (res : Results) (r : TradeRec)
    (h : r.row.asxCode ≠ "") (hs : isSell r.row.orderType = true)
    (hq : ¬r.row.quantity ≤ 0)
    (hp : ¬((pos r.row.asxCode).1 ≤ 0 ∨ (pos r.row.asxCode).2 ≤ 0))
    (hov : ¬(r.row.quantity - (pos r.row.asxCode).1 > tolQty)) :
    processRecord pos res r = .ok
      (updateAt pos r.row.asxCode
        ((if |(pos r.row.asxCode).1 - r.row.quantity| < tolQty then 0
          else (pos r.row.asxCode).1 - r.row.quantity),
         (if |(pos r.row.asxCode).2 -
              (pos r.row.asxCode).2 / (pos r.row.asxCode).1 * r.row.quantity| < tolCost
          then 0
          else (pos r.row.asxCode).2 -
            (pos r.row.asxCode).2 / (pos r.row.asxCode).1 * r.row.quantity)),
       writeResult res r.originalIndex
        (roundCents (r.row.avgPrice * r.row.quantity -
          (pos r.row.asxCode).2 / (pos r.row.asxCode).1 * r.row.quantity))) := by
  simp only [processRecord, if_neg h, isBuy_ne_isSell _ hs, Bool.false_eq_true,
    if_false, hs, if_true, if_neg hq, if_neg hp, if_neg hov]

theorem runRecords_nil (pos : Positions) (res : Results) :
    runRecords pos res [] = .ok (pos, res) := rfl

theorem runRecords_cons_ok (pos pos' : Positions) (res res' : Results)
    (r : TradeRec) (l : List TradeRec)
    (h : processRecord pos res r = .ok (pos', res')) :
    runRecords pos res (r :: l) = runRecords pos' res' l := by
  simp [runRecords, h]

theorem runRecords_cons_error (pos : Positions) (res : Results)
    (r : TradeRec) (l : List TradeRec) (e : EngineError)
    (h : processRecord pos res r = .error e) :
    runRecords pos res (r :: l) = .error e := by
  simp [runRecords, h]

theorem updateAt_apply (pos : Positions) (code : String) (p : ℚ × ℚ) (c : String) :
    updateAt pos code p c = if c = code then p else pos c := rfl

theorem writeResult_apply (res : Results) (i : ℕ) (v : ℤ) (n : ℕ) :
    writeResult res i v n = if n = i then some v else res n := rfl

/-! ### Order theory of the comparator -/

theorem RecLE_total (ci : ColumnInfo) (a b : TradeRec) : RecLE ci a b ∨ RecLE ci b a := by
  unfold RecLE
  rcases lt_trichotomy a.row.tradeDate b.row.tradeDate with h | h | h
  · exact Or.inl (Or.inl h)
  · rcases lt_trichotomy (confKey ci a) (confKey ci b) with hc | hc | hc
    · exact Or.inl (Or.inr ⟨h, Or.inl hc⟩)
    · rcases le_total a.originalIndex b.originalIndex with hi | hi
      · exact Or.inl (Or.inr ⟨h, Or.inr ⟨hc, hi⟩⟩)
      · exact Or.inr (Or.inr ⟨h.symm, Or.inr ⟨hc.symm, hi⟩⟩)
    · exact Or.inr (Or.inr ⟨h.symm, Or.inl hc⟩)
  · exact Or.inr (Or.inl h)

theorem RecLE_trans (ci : ColumnInfo) (a b c : TradeRec)
    (hab : RecLE ci a b) (hbc : RecLE ci b c) : RecLE ci a c := by
  unfold RecLE at hab hbc ⊢
  rcases hab with h1 | ⟨e1, h1⟩
  · rcases hbc with h2 | ⟨e2, h2⟩
    · exact Or.inl (h1.trans h2)
    · exact Or.inl (e2 ▸ h1)
  · rcases hbc with h2 | ⟨e2, h2⟩
    · exact Or.inl (e1 ▸ h2)
    · refine Or.inr ⟨e1.trans e2, ?_⟩
      rcases h1 with hc1 | ⟨ec1, hi1⟩
      · rcases h2 with hc2 | ⟨ec2, hi2⟩
        · exact Or.inl (hc1.trans hc2)
        · exact Or.inl (ec2 ▸ hc1)
      · rcases h2 with hc2 | ⟨ec2, hi2⟩
        · exact Or.inl (ec1 ▸ hc2)
        · exact Or.inr ⟨ec1.trans ec2, hi1.trans hi2⟩

/-- Mutual comparability forces equal dates, equal confirmation fields
and equal original positions. -/
theorem RecLE_antisymm_idx (ci : ColumnInfo) (a b : TradeRec)
    (hab : RecLE ci a b) (hba : RecLE ci b a) :
    a.originalIndex = b.originalIndex := by
  unfold RecLE at hab hba
  rcases hab with h1 | ⟨e1, h1⟩ <;> rcases hba with h2 | ⟨e2, h2⟩
  · exact absurd h2 (lt_asymm h1)
  · exact absurd (e2 ▸ h1) (lt_irrefl _)
  · exact absurd (e1 ▸ h2) (lt_irrefl _)
  · rcases h1 with hc1 | ⟨ec1, hi1⟩ <;> rcases h2 with hc2 | ⟨ec2, hi2⟩
    · exact absurd hc2 (lt_asymm hc1)
    · exact absurd (ec2 ▸ hc1) (lt_irrefl _)
    · exact absurd (ec1 ▸ hc2) (lt_irrefl _)
    · exact le_antisymm hi1 hi2

theorem sortRecords_perm (records : List TradeRec) (ci : ColumnInfo) :
    (sortRecords records ci).Perm records :=
  List.perm_insertionSort _ _

theorem sortRecords_sorted (records : List TradeRec) (ci : ColumnInfo) :
    List.Sorted (RecLE ci) (sortRecords records ci) := by
  haveI : IsTotal TradeRec (RecLE ci) := ⟨RecLE_total ci⟩
  haveI : IsTrans TradeRec (RecLE ci) := ⟨RecLE_trans ci⟩
  exact List.sorted_insertionSort _ _

/-- Two permutations of the same list that are both pairwise related by
an asymmetric relation are equal. -/
theorem eq_of_perm_of_pairwise {α : Type} {r : α → α → Prop}
    (hasymm : ∀ a b, r a b → r b a → False) :
    ∀ l₁ l₂ : List α, l₁.Perm l₂ → l₁.Pairwise r → l₂.Pairwise r → l₁ = l₂ := by
  intro l₁
  induction l₁ with
  | nil =>
    intro l₂ hp _ _
    exact hp.nil_eq
  | cons a t ih =>
    intro l₂ hp h1 h2
    cases l₂ with
    | nil =>
      have := hp.length_eq
      simp at this
    | cons b t₂ =>
      have hab : a = b := by
        by_contra hne
        have ha : a ∈ b :: t₂ := hp.mem_iff.mp (List.mem_cons_self a t)
        have hb : b ∈ a :: t := hp.symm.mem_iff.mp (List.mem_cons_self b t₂)
        have ha' : a ∈ t₂ := by
          rcases List.mem_cons.mp ha with h | h
          · exact absurd h hne
          · exact h
        have hb' : b ∈ t := by
          rcases List.mem_cons.mp hb with h | h
          · exact absurd h.symm hne
          · exact h
        exact hasymm a b ((List.pairwise_cons.mp h1).1 b hb')
          ((List.pairwise_cons.mp h2).1 a ha')
      subst hab
      have hpt : t.Perm t₂ := hp.cons_inv
      rw [ih t₂ hpt (List.pairwise_cons.mp h1).2 (List.pairwise_cons.mp h2).2]

/-- On record lists with pairwise distinct original positions the
comparator is a total order, so the sorted permutation is unique: any
sorted permutation of the input equals `sortRecords`. -/
theorem sortRecords_unique (records : List TradeRec) (ci : ColumnInfo)
    (hnd : (records.map (fun r => r.originalIndex)).Nodup)
    (l : List TradeRec) (hperm : l.Perm records)
    (hsorted : List.Sorted (RecLE ci) l) : l = sortRecords records ci := by
  have hnd₁ : l.Pairwise (fun a b => a.originalIndex ≠ b.originalIndex) := by
    have : (l.map (fun r => r.originalIndex)).Nodup :=
      ((hperm.map (fun r => r.originalIndex)).nodup_iff).mpr hnd
    exact List.pairwise_map.mp this
  have hnd₂ : (sortRecords records ci).Pairwise
      (fun a b => a.originalIndex ≠ b.originalIndex) := by
    have : ((sortRecords records ci).map (fun r => r.originalIndex)).Nodup :=
      (((sortRecords_perm records ci).map (fun r => r.originalIndex)).nodup_iff).mpr hnd
    exact List.pairwise_map.mp this
  apply eq_of_perm_of_pairwise
    (r := fun a b => RecLE ci a b ∧ a.originalIndex ≠ b.originalIndex)
  · rintro a b ⟨hab, hne⟩ ⟨hba, _⟩
    exact hne (RecLE_antisymm_idx ci a b hab hba)
  · exact hperm.trans (sortRecords_perm records ci).symm
  · exact hsorted.and hnd₁
  · exact (sortRecords_sorted records ci).and hnd₂

/-! ### Row-level view of the accounting pass

The loop body only reads a record's `originalIndex` to address the
result slot. Factoring the step into a row-level step plus an indexed
write lets us compare runs over inputs that differ only in their
original positions. -/

/-- The loop body as a function of the row alone: new positions and the
optional profit/loss of this row. -/
def stepRow (pos : Positions) (w : Row) : Except EngineError (Positions × Option ℤ) :=
  if w.asxCode = "" then .ok (pos, none)
  else
    let p := pos w.asxCode
    if isBuy w.orderType then
      .ok (updateAt pos w.asxCode
            (p.1 + w.quantity, p.2 + w.avgPrice * w.quantity), none)
    else if isSell w.orderType then
      if w.quantity ≤ 0 then
        .error (.nonPositiveSellQuantity w.asxCode)
      else if p.1 ≤ 0 ∨ p.2 ≤ 0 then
        .error (.noExistingPosition w.asxCode)
      else if w.quantity - p.1 > tolQty then
        .error (.oversoldPosition w.asxCode)
      else
        let averageCostPerShare := p.2 / p.1
        let costBasis := averageCostPerShare * w.quantity
        let newQty := p.1 - w.quantity
        let newCost := p.2 - costBasis
        .ok (updateAt pos w.asxCode
              (if |newQty| < tolQty then 0 else newQty,
               if |newCost| < tolCost then 0 else newCost),
             some (roundCents (w.avgPrice * w.quantity - costBasis)))
    else .ok (pos, none)

/-- Write an optional value at a slot. -/
def applyWrite (res : Results) (i : ℕ) : Option ℤ → Results
  | none => res
  | some v => writeResult res i v

/-- Write a batch of optional values at a batch of slots, pointwise. -/
def applyWrites (res : Results) : List ℕ → List (Option ℤ) → Results
  | _, [] => res
  | [], _ => res
  | i :: is, v :: vs => applyWrites (applyWrite res i v) is vs

/-- The row-level run: final positions plus the per-processed-row
optional profit/loss values, in processing order. -/
def runRow (pos : Positions) : List Row → Except EngineError (Positions × List (Option ℤ))
  | [] => .ok (pos, [])
  | w :: rest =>
    match stepRow pos w with
    | .error e => .error e
    | .ok s =>
      match runRow s.1 rest with
      | .error e => .error e
      | .ok t => .ok (t.1, s.2 :: t.2)

theorem processRecord_eq_stepRow (pos : Positions) (res : Results) (r : TradeRec) :
    processRecord pos res r =
      (stepRow pos r.row).map (fun s => (s.1, applyWrite res r.originalIndex s.2)) := by
  unfold processRecord stepRow
  by_cases h : r.row.asxCode = "" <;> simp only [h, if_true, if_false, Except.map]
  · rfl
  · by_cases hb : isBuy r.row.orderType <;> simp only [hb, if_true, if_false]
    · rfl
    · by_cases hs : isSell r.row.orderType <;> simp only [hs, if_true, if_false]
      · by_cases hq : r.row.quantity ≤ 0 <;> simp only [hq, if_true, if_false]
        · rfl
        · by_cases hp : (pos r.row.asxCode).1 ≤ 0 ∨ (pos r.row.asxCode).2 ≤ 0 <;>
            simp only [hp, if_true, if_false]
          · rfl
          · by_cases hov : r.row.quantity - (pos r.row.asxCode).1 > tolQty <;>
              simp only [hov, if_true, if_false]
            · rfl
            · rfl
      · rfl

theorem runRecords_eq_runRow : ∀ (l : List TradeRec) (pos : Positions) (res : Results),
    runRecords pos res l =
      (runRow pos (l.map (fun r => r.row))).map
        (fun t => (t.1, applyWrites res (l.map (fun r => r.originalIndex)) t.2))
  | [], pos, res => rfl
  | r :: rest, pos, res => by
    cases hs : stepRow pos r.row with
    | error e =>
      have hpr : processRecord pos res r = .error e := by
        rw [processRecord_eq_stepRow, hs]
        rfl
      rw [runRecords_cons_error _ _ _ _ _ hpr]
      simp [runRow, hs, Except.map]
    | ok s =>
      have hpr : processRecord pos res r =
          .ok (s.1, applyWrite res r.originalIndex s.2) := by
        rw [processRecord_eq_stepRow, hs]
        rfl
      rw [runRecords_cons_ok _ _ _ _ _ _ hpr]
      rw [runRecords_eq_runRow rest s.1 (applyWrite res r.originalIndex s.2)]
      cases ht : runRow s.1 (rest.map (fun x => x.row)) with
      | error e => simp [runRow, hs, ht, Except.map]
      | ok t => simp [runRow, hs, ht, Except.map, applyWrites]

theorem runRow_length : ∀ (rows : List Row) (pos : Positions) (t : Positions × List (Option ℤ)),
    runRow pos rows = .ok t → t.2.length = rows.length
  | [], pos, t, h => by
    simp only [runRow] at h
    cases h
    rfl
  | w :: rest, pos, t, h => by
    cases hs : stepRow pos w with
    | error e =>
      simp only [runRow, hs] at h
      exact absurd h (by simp)
    | ok s =>
      simp only [runRow, hs] at h
      cases ht : runRow s.1 rest with
      | error e =>
        simp only [ht] at h
        exact absurd h (by simp)
      | ok u =>
        simp only [ht] at h
        have h2 : t = (u.1, s.2 :: u.2) := by
          injection h with h3
          exact h3.symm
        subst h2
        simp [runRow_length rest s.1 u ht]

theorem applyWrites_notMem : ∀ (idxs : List ℕ) (vals : List (Option ℤ)) (res : Results)
    (i : ℕ), i ∉ idxs → applyWrites res idxs vals i = res i
  | [], vals, res, i, _ => by cases vals <;> rfl
  | j :: is, [], res, i, _ => rfl
  | j :: is, v :: vs, res, i, h => by
    have hij : i ≠ j := fun hc => h (hc ▸ List.mem_cons_self j is)
    have his : i ∉ is := fun hc => h (List.mem_cons_of_mem j hc)
    show applyWrites (applyWrite res j v) is vs i = res i
    rw [applyWrites_notMem is vs (applyWrite res j v) i his]
    cases v with
    | none => rfl
    | some n => simp [applyWrite, writeResult, hij]

theorem applyWrites_get (idxs : List ℕ) : ∀ (vals : List (Option ℤ)) (res : Results)
    (k : ℕ) (hk : k < idxs.length) (hk2 : k < vals.length), idxs.Nodup →
    res idxs[k] = none →
    applyWrites res idxs vals idxs[k] = vals[k] := by
  induction idxs with
  | nil =>
    intro vals res k hk
    exact absurd hk (by simp)
  | cons j is ih =>
    intro vals res k hk hk2 hnd hres
    cases vals with
    | nil => exact absurd hk2 (by simp)
    | cons v vs =>
      cases k with
      | zero =>
        simp only [List.getElem_cons_zero] at hres ⊢
        show applyWrites (applyWrite res j v) is vs j = v
        rw [applyWrites_notMem is vs _ j (List.nodup_cons.mp hnd).1]
        cases v with
        | none => exact hres
        | some n => simp [applyWrite, writeResult]
      | succ k =>
        have hk' : k < is.length := by simpa using hk
        have hk2' : k < vs.length := by simpa using hk2
        simp only [List.getElem_cons_succ] at hres ⊢
        have hne : is[k] ≠ j := by
          intro hc
          exact (List.nodup_cons.mp hnd).1 (hc ▸ List.getElem_mem hk')
        show applyWrites (applyWrite res j v) is vs is[k] = vs[k]
        apply ih vs (applyWrite res j v) k hk' hk2' (List.nodup_cons.mp hnd).2
        cases v with
        | none => exact hres
        | some n => simpa [applyWrite, writeResult, hne] using hres

end ProfitLoss

/-! ### Agreement of the two implementations -/

namespace ProfitLoss

/-- Branch lemmas for the inline loop body. -/
theorem processRecordInline_emptyCode (pos : Positions) (res : Results) (r : TradeRec)
    (h : r.row.asxCode = "") : processRecordInline pos res r = (pos, res) := by
  simp [processRecordInline, h]

theorem processRecordInline_buy (pos : Positions) (res : Results) (r : TradeRec)
    (h : r.row.asxCode ≠ "") (hb : isBuy r.row.orderType = true) :
    processRecordInline pos res r =
      (updateAt pos r.row.asxCode
        ((pos r.row.asxCode).1 + r.row.quantity,
         (pos r.row.asxCode).2 + r.row.avgPrice * r.row.quantity), res) := by
  simp [processRecordInline, h, hb]

theorem processRecordInline_other (pos : Positions) (res : Results) (r : TradeRec)
    (hb : isBuy r.row.orderType = false) (hs : isSell r.row.orderType = false) :
    processRecordInline pos res r = (pos, res) := by
  by_cases h : r.row.asxCode = "" <;> simp [processRecordInline, h, hb, hs]

theorem processRecordInline_sell_pos (pos : Positions) (res : Results) (r : TradeRec)
    (h : r.row.asxCode ≠ "") (hs : isSell r.row.orderType = true)
    (hpos : 0 < (pos r.row.asxCode).1 ∧ 0 < (pos r.row.asxCode).2) :
    processRecordInline pos res r =
      (updateAt pos r.row.asxCode
        ((if |(pos r.row.asxCode).1 - r.row.quantity| < tolQty then 0
          else (pos r.row.asxCode).1 - r.row.quantity),
         (if |(pos r.row.asxCode).2 -
              (pos r.row.asxCode).2 / (pos r.row.asxCode).1 * r.row.quantity| < tolCost
          then 0
          else (pos r.row.asxCode).2 -
            (pos r.row.asxCode).2 / (pos r.row.asxCode).1 * r.row.quantity)),
       writeResult res r.originalIndex
        (roundCents (r.row.avgPrice * r.row.quantity -
          (pos r.row.asxCode).2 / (pos r.row.asxCode).1 * r.row.quantity))) := by
  simp only [processRecordInline, if_neg h, isBuy_ne_isSell _ hs, Bool.false_eq_true,
    if_false, hs, if_true, if_pos hpos]

/-- Whenever the checked loop body of `calculate_pl.js` succeeds, the
unchecked inline loop body of `calculate_profit_loss.js` computes the
same state: under the sell validity checks the prior position is
strictly positive, so the inline body takes the same average cost. -/
theorem processRecordInline_eq (pos : Positions) (res : Results) (r : TradeRec)
    (s : Positions × Results) (h : processRecord pos res r = .ok s) :
    processRecordInline pos res r = s := by
  by_cases hc : r.row.asxCode = ""
  · rw [processRecord_emptyCode pos res r hc] at h
    rw [processRecordInline_emptyCode pos res r hc]
    exact Except.ok.inj h
  · by_cases hb : isBuy r.row.orderType = true
    · rw [processRecord_buy pos res r hc hb] at h
      rw [processRecordInline_buy pos res r hc hb]
      exact Except.ok.inj h
    · by_cases hsl : isSell r.row.orderType = true
      · by_cases hq : r.row.quantity ≤ 0
        · rw [processRecord_sell_nonpos pos res r hc hsl hq] at h
          exact absurd h (by simp)
        · by_cases hp : (pos r.row.asxCode).1 ≤ 0 ∨ (pos r.row.asxCode).2 ≤ 0
          · rw [processRecord_sell_noPosition pos res r hc hsl hq hp] at h
            exact absurd h (by simp)
          · by_cases hov : r.row.quantity - (pos r.row.asxCode).1 > tolQty
            · rw [processRecord_sell_oversold pos res r hc hsl hq hp hov] at h
              exact absurd h (by simp)
            · rw [processRecord_sell_ok pos res r hc hsl hq hp hov] at h
              push_neg at hp
              rw [processRecordInline_sell_pos pos res r hc hsl ⟨hp.1, hp.2⟩]
              exact Except.ok.inj h
      · rw [processRecord_other pos res r
          (Bool.not_eq_true _ ▸ hb) (Bool.not_eq_true _ ▸ hsl)] at h
        rw [processRecordInline_other pos res r
          (Bool.not_eq_true _ ▸ hb) (Bool.not_eq_true _ ▸ hsl)]
        exact Except.ok.inj h

/-- Run-level agreement: a successful checked run is reproduced exactly
by the unchecked inline run. -/
theorem runRecordsInline_eq : ∀ (l : List TradeRec) (pos : Positions) (res : Results)
    (s : Positions × Results), runRecords pos res l = .ok s →
    runRecordsInline pos res l = s
  | [], pos, res, s, h => Except.ok.inj h
  | r :: rest, pos, res, s, h => by
    cases hpr : processRecord pos res r with
    | error e =>
      rw [runRecords_cons_error _ _ _ _ _ hpr] at h
      exact absurd h (by simp)
    | ok s1 =>
      rw [runRecords_cons_ok _ s1.1 _ s1.2 _ _ (by rw [hpr])] at h
      show runRecordsInline (processRecordInline pos res r).1
        (processRecordInline pos res r).2 rest = s
      rw [processRecordInline_eq pos res r s1 hpr]
      exact runRecordsInline_eq rest s1.1 s1.2 s h

end ProfitLoss

/-! ### The non-negativity invariant of positions -/

namespace ProfitLoss

/-- Every tracked position has non-negative quantity and cost. -/
def NonnegState (pos : Positions) : Prop := ∀ c, 0 ≤ (pos c).1 ∧ 0 ≤ (pos c).2

/-- Every Buy record carries a non-negative quantity and unit price. -/
def buyFieldsNonneg (records : List TradeRec) : Prop :=
  ∀ r ∈ records, isBuy r.row.orderType = true →
    0 ≤ r.row.quantity ∧ 0 ≤ r.row.avgPrice

instance (records : List TradeRec) : Decidable (buyFieldsNonneg records) := by
  unfold buyFieldsNonneg
  exact inferInstance

/-- Along the run, every Sell takes at most the held quantity of its
instrument as it stands when the sell is processed (i.e. the `1e-8`
overshoot tolerance is never exercised). -/
def sellsWithinHeld : Positions → List TradeRec → Bool
  | _, [] => true
  | pos, r :: rest =>
    ((!isSell r.row.orderType) || (r.row.asxCode == "") ||
      decide (r.row.quantity ≤ (pos r.row.asxCode).1)) &&
    (match processRecord pos emptyResults r with
     | .error _ => true
     | .ok s => sellsWithinHeld s.1 rest)

/-- The new positions map computed by the loop body does not depend on
the result store. -/
theorem processRecord_fst_indep (pos : Positions) (res res' : Results) (r : TradeRec) :
    (processRecord pos res r).map Prod.fst = (processRecord pos res' r).map Prod.fst := by
  rw [processRecord_eq_stepRow, processRecord_eq_stepRow]
  cases stepRow pos r.row <;> rfl

theorem processRecord_preserves_nonneg (pos : Positions) (res : Results) (r : TradeRec)
    (pos' : Positions) (res' : Results)
    (hinv : NonnegState pos)
    (hbuy : isBuy r.row.orderType = true → 0 ≤ r.row.quantity ∧ 0 ≤ r.row.avgPrice)
    (hsell : isSell r.row.orderType = true → r.row.asxCode ≠ "" →
      r.row.quantity ≤ (pos r.row.asxCode).1)
    (h : processRecord pos res r = .ok (pos', res')) :
    NonnegState pos' := by
  by_cases hc : r.row.asxCode = ""
  · rw [processRecord_emptyCode pos res r hc] at h
    have h2 := Except.ok.inj h
    have h1 : pos' = pos := (congrArg Prod.fst h2).symm
    rw [h1]
    exact hinv
  · by_cases hb : isBuy r.row.orderType = true
    · rw [processRecord_buy pos res r hc hb] at h
      have h2 := Except.ok.inj h
      have h1 : pos' = updateAt pos r.row.asxCode
          ((pos r.row.asxCode).1 + r.row.quantity,
           (pos r.row.asxCode).2 + r.row.avgPrice * r.row.quantity) :=
        (congrArg Prod.fst h2).symm
      rw [h1]
      intro c
      rw [updateAt_apply]
      by_cases hcc : c = r.row.asxCode
      · simp only [hcc, if_true]
        constructor
        · exact add_nonneg (hinv r.row.asxCode).1 (hbuy hb).1
        · exact add_nonneg (hinv r.row.asxCode).2
            (mul_nonneg (hbuy hb).2 (hbuy hb).1)
      · simp only [hcc, if_false]
        exact hinv c
    · by_cases hsl : isSell r.row.orderType = true
      · by_cases hq : r.row.quantity ≤ 0
        · rw [processRecord_sell_nonpos pos res r hc hsl hq] at h
          exact absurd h (by simp)
        · by_cases hp : (pos r.row.asxCode).1 ≤ 0 ∨ (pos r.row.asxCode).2 ≤ 0
          · rw [processRecord_sell_noPosition pos res r hc hsl hq hp] at h
            exact absurd h (by simp)
          · by_cases hov : r.row.quantity - (pos r.row.asxCode).1 > tolQty
            · rw [processRecord_sell_oversold pos res r hc hsl hq hp hov] at h
              exact absurd h (by simp)
            · rw [processRecord_sell_ok pos res r hc hsl hq hp hov] at h
              have h2 := Except.ok.inj h
              obtain ⟨h1, h4⟩ := Prod.mk.inj h2
              rw [← h1]
              push_neg at hp
              have hp1 : 0 < (pos r.row.asxCode).1 := hp.1
              have hp2 : 0 < (pos r.row.asxCode).2 := hp.2
              have hsle : r.row.quantity ≤ (pos r.row.asxCode).1 := hsell hsl hc
              have hcb : (pos r.row.asxCode).2 / (pos r.row.asxCode).1 * r.row.quantity ≤
                  (pos r.row.asxCode).2 := by
                rw [div_mul_eq_mul_div, div_le_iff₀ hp1]
                exact mul_le_mul_of_nonneg_left hsle (le_of_lt hp2)
              intro c
              rw [updateAt_apply]
              by_cases hcc : c = r.row.asxCode
              · simp only [hcc, if_true]
                constructor
                · dsimp only
                  split_ifs with h3
                  · exact le_refl 0
                  · exact sub_nonneg.mpr hsle
                · dsimp only
                  split_ifs with h3
                  · exact le_refl 0
                  · exact sub_nonneg.mpr hcb
              · simp only [hcc, if_false]
                exact hinv c
      · rw [processRecord_other pos res r
          (Bool.not_eq_true _ ▸ hb) (Bool.not_eq_true _ ▸ hsl)] at h
        have h2 := Except.ok.inj h
        have h1 : pos' = pos := (congrArg Prod.fst h2).symm
        rw [h1]
        exact hinv

theorem runRecords_preserves_nonneg : ∀ (l : List TradeRec) (pos : Positions)
    (res : Results) (pos' : Positions) (res' : Results),
    NonnegState pos → buyFieldsNonneg l → sellsWithinHeld pos l = true →
    runRecords pos res l = .ok (pos', res') → NonnegState pos'
  | [], pos, res, pos', res', hinv, _, _, hrun => by
    have h2 := Except.ok.inj hrun
    have h1 : pos' = pos := (congrArg Prod.fst h2).symm
    rw [h1]
    exact hinv
  | r :: rest, pos, res, pos', res', hinv, hbuys, hsw, hrun => by
    cases hpr : processRecord pos res r with
    | error e =>
      rw [runRecords_cons_error _ _ _ _ _ hpr] at hrun
      exact absurd hrun (by simp)
    | ok s =>
      rw [runRecords_cons_ok _ s.1 _ s.2 _ _ (by rw [hpr])] at hrun
      have hind := processRecord_fst_indep pos res emptyResults r
      rw [hpr] at hind
      cases hpe : processRecord pos emptyResults r with
      | error e =>
        rw [hpe] at hind
        exact absurd hind (by simp [Except.map])
      | ok s2 =>
        rw [hpe] at hind
        have hs21 : s2.1 = s.1 := (Except.ok.inj hind).symm
        unfold sellsWithinHeld at hsw
        rw [Bool.and_eq_true] at hsw
        have hswr := hsw.1
        have hswrest : sellsWithinHeld s.1 rest = true := by
          have := hsw.2
          rw [hpe] at this
          rw [← hs21]
          exact this
        have hsellr : isSell r.row.orderType = true → r.row.asxCode ≠ "" →
            r.row.quantity ≤ (pos r.row.asxCode).1 := by
          intro hs hcne
          rcases Bool.or_eq_true _ _ |>.mp hswr with h1 | h1
          · rcases Bool.or_eq_true _ _ |>.mp h1 with h2 | h2
            · rw [hs] at h2
              exact absurd h2 (by simp)
            · exact absurd (by simpa using h2) hcne
          · exact of_decide_eq_true h1
        have hinv' : NonnegState s.1 :=
          processRecord_preserves_nonneg pos res r s.1 s.2 hinv
            (hbuys r (List.mem_cons_self r rest)) hsellr (by rw [hpr])
        exact runRecords_preserves_nonneg rest s.1 s.2 pos' res' hinv'
          (fun x hx => hbuys x (List.mem_cons_of_mem r hx)) hswrest hrun

end ProfitLoss

/-! ### Records built from rows, and the key order on rows -/

namespace ProfitLoss

theorem mkRecords_map_row (rows : List Row) :
    (mkRecords rows).map (fun r => r.row) = rows := by
  simp [mkRecords, List.map_map, Function.comp]
  exact List.enum_map_snd rows

theorem mkRecords_map_idx (rows : List Row) :
    (mkRecords rows).map (fun r => r.originalIndex) = List.range rows.length := by
  simp [mkRecords, List.map_map, Function.comp]
  exact List.enum_map_fst rows

theorem mkRecords_mem (rows : List Row) (i : ℕ) (hi : i < rows.length) :
    (⟨rows[i], i⟩ : TradeRec) ∈ mkRecords rows := by
  have : (i, rows[i]) ∈ rows.enum := by
    rw [List.mem_iff_getElem]
    exact ⟨i, by simpa using hi, by simp⟩
  exact List.mem_map.mpr ⟨(i, rows[i]), this, rfl⟩

/-- The sort key of a row: trade date and confirmation field. -/
def rowKey (ci : ColumnInfo) (w : Row) : ℤ × String := (w.tradeDate, rowConf ci w)

/-- Strict ascending order of sort keys. -/
def RowLT (ci : ColumnInfo) (u v : Row) : Prop :=
  u.tradeDate < v.tradeDate ∨ (u.tradeDate = v.tradeDate ∧ rowConf ci u < rowConf ci v)

theorem RowLT_asymm (ci : ColumnInfo) (u v : Row)
    (huv : RowLT ci u v) (hvu : RowLT ci v u) : False := by
  rcases huv with h1 | ⟨e1, h1⟩ <;> rcases hvu with h2 | ⟨e2, h2⟩
  · exact lt_asymm h1 h2
  · exact lt_irrefl _ (e2 ▸ h1)
  · exact lt_irrefl _ (e1 ▸ h2)
  · exact lt_asymm h1 h2

theorem RowLT_ne (ci : ColumnInfo) (u v : Row) (h : RowLT ci u v) : u ≠ v := by
  intro hc
  exact RowLT_asymm ci u v h (hc ▸ h)

/-- A mutually comparable pair with distinct keys is strictly ordered. -/
theorem RecLE_rowLT (ci : ColumnInfo) (a b : TradeRec)
    (hab : RecLE ci a b) (hne : rowKey ci a.row ≠ rowKey ci b.row) :
    RowLT ci a.row b.row := by
  rcases hab with h1 | ⟨e1, h1⟩
  · exact Or.inl h1
  · rcases h1 with hc1 | ⟨ec1, _⟩
    · exact Or.inr ⟨e1, hc1⟩
    · exact absurd (Prod.ext e1 ec1) hne

/-- A sorted record list whose rows have pairwise distinct keys has its
row sequence pairwise strictly ordered by key. -/
theorem sorted_rows_pairwise (ci : ColumnInfo) (l : List TradeRec)
    (hsorted : List.Sorted (RecLE ci) l)
    (hkeys : l.Pairwise (fun a b => rowKey ci a.row ≠ rowKey ci b.row)) :
    (l.map (fun r => r.row)).Pairwise (RowLT ci) := by
  rw [List.pairwise_map]
  exact (hsorted.and hkeys).imp (fun h => RecLE_rowLT ci _ _ h.1 h.2)

end ProfitLoss

namespace ProfitLoss

/-- Under pairwise distinct keys, the chronological row sequence of the
sorted records is pairwise strictly ordered by key. -/
theorem sortRecords_rows_pairwise (rows : List Row) (ci : ColumnInfo)
    (hkeys : rows.Pairwise (fun u v => rowKey ci u ≠ rowKey ci v)) :
    ((sortRecords (mkRecords rows) ci).map (fun r => r.row)).Pairwise (RowLT ci) := by
  apply sorted_rows_pairwise ci _ (sortRecords_sorted _ _)
  have h0 : ((mkRecords rows).map (fun r => r.row)).Pairwise
      (fun u v => rowKey ci u ≠ rowKey ci v) := by
    rw [mkRecords_map_row]
    exact hkeys
  have h1 : (mkRecords rows).Pairwise
      (fun a b => rowKey ci a.row ≠ rowKey ci b.row) :=
    (List.pairwise_map (f := fun r : TradeRec => r.row)
      (R := fun u v : Row => rowKey ci u ≠ rowKey ci v)).mp h0
  exact (List.Perm.pairwise_iff
    (R := fun a b : TradeRec => rowKey ci a.row ≠ rowKey ci b.row)
    (fun h hc => h hc.symm) (sortRecords_perm (mkRecords rows) ci)).mpr h1

/-- Reordering the input rows without touching their dates or
confirmation fields leaves the chronological row sequence unchanged,
provided the keys are pairwise distinct. -/
theorem sortRecords_rows_eq (rows rows' : List Row) (ci : ColumnInfo)
    (hperm : rows.Perm rows')
    (hkeys : rows.Pairwise (fun u v => rowKey ci u ≠ rowKey ci v)) :
    (sortRecords (mkRecords rows) ci).map (fun r => r.row) =
      (sortRecords (mkRecords rows') ci).map (fun r => r.row) := by
  have hkeys' : rows'.Pairwise (fun u v => rowKey ci u ≠ rowKey ci v) :=
    (List.Perm.pairwise_iff (R := fun u v : Row => rowKey ci u ≠ rowKey ci v)
      (fun h hc => h hc.symm) hperm).mp hkeys
  have p1 : ((sortRecords (mkRecords rows) ci).map (fun r => r.row)).Perm rows := by
    have := (sortRecords_perm (mkRecords rows) ci).map (fun r => r.row)
    rwa [mkRecords_map_row] at this
  have p2 : ((sortRecords (mkRecords rows') ci).map (fun r => r.row)).Perm rows' := by
    have := (sortRecords_perm (mkRecords rows') ci).map (fun r => r.row)
    rwa [mkRecords_map_row] at this
  exact eq_of_perm_of_pairwise (RowLT_asymm ci) _ _
    (p1.trans (hperm.trans p2.symm))
    (sortRecords_rows_pairwise rows ci hkeys)
    (sortRecords_rows_pairwise rows' ci hkeys')

end ProfitLoss

namespace ProfitLoss

/-- Permutation invariance of the engine under pairwise distinct
`(tradeDate, confirmation)` keys: the profit/loss computed for a given
row content does not depend on where that row sits in the input, and a
failing run fails identically. -/
theorem engine_perm_invariant (rows rows' : List Row) (ci : ColumnInfo) (i j : ℕ)
    (w : Row) (hperm : rows.Perm rows')
    (hkeys : rows.Pairwise (fun u v => rowKey ci u ≠ rowKey ci v))
    (hi : i < rows.length) (hj : j < rows'.length)
    (hwi : rows[i] = w) (hwj : rows'[j] = w) :
    (calculateProfitLossForRecords (mkRecords rows) ci).map (fun f => f i) =
      (calculateProfitLossForRecords (mkRecords rows') ci).map (fun f => f j) := by
  have hrows : (sortRecords (mkRecords rows) ci).map (fun r => r.row) =
      (sortRecords (mkRecords rows') ci).map (fun r => r.row) :=
    sortRecords_rows_eq rows rows' ci hperm hkeys
  have hmem1 : (⟨w, i⟩ : TradeRec) ∈ sortRecords (mkRecords rows) ci :=
    ((sortRecords_perm (mkRecords rows) ci).mem_iff).mpr (hwi ▸ mkRecords_mem rows i hi)
  have hmem2 : (⟨w, j⟩ : TradeRec) ∈ sortRecords (mkRecords rows') ci :=
    ((sortRecords_perm (mkRecords rows') ci).mem_iff).mpr (hwj ▸ mkRecords_mem rows' j hj)
  obtain ⟨k, hk, hsk⟩ := List.mem_iff_getElem.mp hmem1
  obtain ⟨k2, hk2, hsk2⟩ := List.mem_iff_getElem.mp hmem2
  have hpw : ((sortRecords (mkRecords rows) ci).map (fun r => r.row)).Pairwise (RowLT ci) :=
    sortRecords_rows_pairwise rows ci hkeys
  have hnodup : ((sortRecords (mkRecords rows) ci).map (fun r => r.row)).Nodup :=
    hpw.imp (fun h => RowLT_ne ci _ _ h)
  have e1 : ((sortRecords (mkRecords rows) ci).map (fun r => r.row))[k]? = some w := by
    rw [List.getElem?_eq_getElem (by simpa using hk)]
    simp [hsk]
  have e2 : ((sortRecords (mkRecords rows) ci).map (fun r => r.row))[k2]? = some w := by
    rw [hrows, List.getElem?_eq_getElem (by simpa using hk2)]
    simp [hsk2]
  obtain ⟨hb1, hB1⟩ := List.getElem?_eq_some_iff.mp e1
  obtain ⟨hb2, hB2⟩ := List.getElem?_eq_some_iff.mp e2
  have hkk : k = k2 :=
    (@List.Nodup.getElem_inj_iff _ _ hnodup k hb1 k2 hb2).mp (hB1.trans hB2.symm)
  have hrun_eq : runRow emptyPositions
        ((sortRecords (mkRecords rows') ci).map (fun r => r.row)) =
      runRow emptyPositions
        ((sortRecords (mkRecords rows) ci).map (fun r => r.row)) := by
    rw [hrows]
  unfold calculateProfitLossForRecords
  rw [runRecords_eq_runRow, runRecords_eq_runRow, hrun_eq]
  cases hrr : runRow emptyPositions
      ((sortRecords (mkRecords rows) ci).map (fun r => r.row)) with
  | error e => rfl
  | ok t =>
    simp only [Except.map]
    congr 1
    have hlen : t.2.length = (sortRecords (mkRecords rows) ci).length := by
      have := runRow_length _ _ _ hrr
      simpa using this
    have hmk : k < ((sortRecords (mkRecords rows) ci).map
        (fun r => r.originalIndex)).length := by
      simpa using hk
    have hmk2 : k2 < ((sortRecords (mkRecords rows') ci).map
        (fun r => r.originalIndex)).length := by
      simpa using hk2
    have htk : k < t.2.length := by
      rw [hlen]
      exact hk
    have htk2 : k2 < t.2.length := by
      rw [hlen, ← hkk]
      exact hk
    have hidx1 : ((sortRecords (mkRecords rows) ci).map
        (fun r => r.originalIndex))[k] = i := by
      simp [hsk]
    have hidx2 : ((sortRecords (mkRecords rows') ci).map
        (fun r => r.originalIndex))[k2] = j := by
      simp [hsk2]
    have hnd1 : ((sortRecords (mkRecords rows) ci).map
        (fun r => r.originalIndex)).Nodup := by
      have hp := (sortRecords_perm (mkRecords rows) ci).map (fun r => r.originalIndex)
      rw [mkRecords_map_idx] at hp
      exact (hp.nodup_iff).mpr (List.nodup_range _)
    have hnd2 : ((sortRecords (mkRecords rows') ci).map
        (fun r => r.originalIndex)).Nodup := by
      have hp := (sortRecords_perm (mkRecords rows') ci).map (fun r => r.originalIndex)
      rw [mkRecords_map_idx] at hp
      exact (hp.nodup_iff).mpr (List.nodup_range _)
    have hv1 : applyWrites emptyResults
        ((sortRecords (mkRecords rows) ci).map (fun r => r.originalIndex)) t.2 i =
        t.2[k] := by
      rw [← hidx1]
      exact applyWrites_get _ _ _ k hmk htk hnd1 rfl
    have hv2 : applyWrites emptyResults
        ((sortRecords (mkRecords rows') ci).map (fun r => r.originalIndex)) t.2 j =
        t.2[k2] := by
      rw [← hidx2]
      exact applyWrites_get _ _ _ k2 hmk2 htk2 hnd2 rfl
    rw [hv1, hv2]
    congr 1

end ProfitLoss

/-! ### Concrete fixtures for examples, witnesses and counterexamples -/

namespace ProfitLoss

/-- Schema without the optional confirmation column. -/
def ciNoConf : ColumnInfo := ⟨none⟩

/-- A row with the given code, order type, date, unit price and quantity. -/
def mkRow (code ot : String) (d : ℤ) (pr q : ℚ) : Row := ⟨[], code, ot, d, pr, q⟩

/-- Spec scenario 1: Buy 10 @ 10, Buy 10 @ 20 (later), Sell 10 @ 30 (latest). -/
def c1Rows : List Row :=
  [mkRow "ABC" "Buy" 1 10 10, mkRow "ABC" "Buy" 2 20 10, mkRow "ABC" "Sell" 3 30 10]

/-- Prior position of 20 units at total cost 300 for every code. -/
def wPos : Positions := fun _ => (20, 300)

/-- A sell of 10 units at 30 sitting at input position 2. -/
def wSell : TradeRec := ⟨⟨[], "ABC", "Sell", 3, 30, 10⟩, 2⟩

/-- A buy record whose quantity is negative. -/
def negBuyRec : TradeRec := ⟨⟨[], "NEG", "Buy", 0, 10, -5⟩, 0⟩

/-- A record whose order type is neither buy nor sell. -/
def otherRec : TradeRec := ⟨⟨[], "AAA", "Dividend", 0, 1, 1⟩, 0⟩

/-- One plain buy record. -/
def plainBuyRec : TradeRec := ⟨⟨[], "AAA", "Buy", 0, 10, 5⟩, 0⟩

end ProfitLoss

/-! ### Claim theorems -/

namespace ProfitLoss

/-- C1: for every Sell record that passes the sell validity checks, the
recorded profit/loss equals `unitPrice * quantity` minus
`(totalCostBasis / heldQuantity) * quantity` taken on the position as it
stood immediately before the sale, rounded to 2 decimal places and keyed
by the record's `originalPosition`; and the Buy 10 @ 10, Buy 10 @ 20,
Sell 10 @ 30 scenario on one code yields `150.00`. -/
theorem claim_C1 (pos : Positions) (res : Results) (r : TradeRec)
    (h : r.row.asxCode ≠ "") (hs : isSell r.row.orderType = true)
    (hq : ¬r.row.quantity ≤ 0)
    (hp : ¬((pos r.row.asxCode).1 ≤ 0 ∨ (pos r.row.asxCode).2 ≤ 0))
    (hov : ¬(r.row.quantity - (pos r.row.asxCode).1 > tolQty)) :
    ((processRecord pos res r).map (fun s => s.2 r.originalIndex) =
      .ok (some (roundCents (r.row.avgPrice * r.row.quantity -
        (pos r.row.asxCode).2 / (pos r.row.asxCode).1 * r.row.quantity)))) ∧
    (calculateProfitLossForRecords (mkRecords c1Rows) ciNoConf).map (fun f => f 2) =
      .ok (some 15000) ∧
    formatCents 15000 = "150.00" := by
  refine ⟨?_, ?_, by rfl⟩
  · rw [processRecord_sell_ok pos res r h hs hq hp hov]
    simp [Except.map, writeResult_apply]
  · have hsort : sortRecords (mkRecords c1Rows) ciNoConf = mkRecords c1Rows :=
      List.Sorted.insertionSort_eq (by decide)
    unfold calculateProfitLossForRecords
    rw [hsort]
    show ((runRecords emptyPositions emptyResults
        [⟨mkRow "ABC" "Buy" 1 10 10, 0⟩, ⟨mkRow "ABC" "Buy" 2 20 10, 1⟩,
         ⟨mkRow "ABC" "Sell" 3 30 10, 2⟩]).map
        (fun s => s.2)).map (fun f => f 2) = .ok (some 15000)
    rw [runRecords_cons_ok _ _ _ _ _ _ (processRecord_buy _ _ _ (by decide) (by decide))]
    rw [runRecords_cons_ok _ _ _ _ _ _ (processRecord_buy _ _ _ (by decide) (by decide))]
    rw [runRecords_cons_ok _ _ _ _ _ _ (processRecord_sell_ok _ _ _ (by decide) (by decide)
          (by norm_num [mkRow])
          (by norm_num [mkRow, updateAt_apply, emptyPositions])
          (by norm_num [mkRow, tolQty, updateAt_apply, emptyPositions]))]
    rw [runRecords_nil]
    simp only [Except.map, mkRow, writeResult_apply, updateAt_apply, emptyPositions]
    norm_num [roundCents, round_eq]

theorem claim_C1_witness :
    ((processRecord wPos emptyResults wSell).map (fun s => s.2 wSell.originalIndex) =
      .ok (some (roundCents (wSell.row.avgPrice * wSell.row.quantity -
        (wPos wSell.row.asxCode).2 / (wPos wSell.row.asxCode).1 * wSell.row.quantity)))) ∧
    (calculateProfitLossForRecords (mkRecords c1Rows) ciNoConf).map (fun f => f 2) =
      .ok (some 15000) ∧
    formatCents 15000 = "150.00" :=
  claim_C1 wPos emptyResults wSell (by decide) (by decide)
    (by with_unfolding_all decide) (by with_unfolding_all decide)
    (by with_unfolding_all decide)

/-- C2: for a Sell record with a non-empty code reached in any state,
the loop body fails with `NonPositiveSellQuantity` exactly when
`quantity ≤ 0`; otherwise with `NoExistingPosition` exactly when the
prior `heldQuantity ≤ 0` or `totalCostBasis ≤ 0`; otherwise with
`OversoldPosition` exactly when the quantity exceeds the held quantity
by more than `1e-8`; and any failing step aborts the whole run with that
error (so no results are produced). -/
theorem claim_C2 (pos : Positions) (res : Results) (r : TradeRec)
    (h : r.row.asxCode ≠ "") (hs : isSell r.row.orderType = true) :
    (processRecord pos res r = .error (.nonPositiveSellQuantity r.row.asxCode) ↔
      r.row.quantity ≤ 0) ∧
    (¬r.row.quantity ≤ 0 →
      (processRecord pos res r = .error (.noExistingPosition r.row.asxCode) ↔
        ((pos r.row.asxCode).1 ≤ 0 ∨ (pos r.row.asxCode).2 ≤ 0))) ∧
    (¬r.row.quantity ≤ 0 → ¬((pos r.row.asxCode).1 ≤ 0 ∨ (pos r.row.asxCode).2 ≤ 0) →
      (processRecord pos res r = .error (.oversoldPosition r.row.asxCode) ↔
        r.row.quantity - (pos r.row.asxCode).1 > tolQty)) ∧
    (∀ e rest, processRecord pos res r = .error e →
      runRecords pos res (r :: rest) = .error e) := by
  refine ⟨⟨?_, processRecord_sell_nonpos pos res r h hs⟩, ?_, ?_, ?_⟩
  · intro he
    by_contra hq
    by_cases hp : (pos r.row.asxCode).1 ≤ 0 ∨ (pos r.row.asxCode).2 ≤ 0
    · rw [processRecord_sell_noPosition pos res r h hs hq hp] at he
      simp at he
    · by_cases hov : r.row.quantity - (pos r.row.asxCode).1 > tolQty
      · rw [processRecord_sell_oversold pos res r h hs hq hp hov] at he
        simp at he
      · rw [processRecord_sell_ok pos res r h hs hq hp hov] at he
        simp at he
  · intro hq
    constructor
    · intro he
      by_contra hp
      by_cases hov : r.row.quantity - (pos r.row.asxCode).1 > tolQty
      · rw [processRecord_sell_oversold pos res r h hs hq hp hov] at he
        simp at he
      · rw [processRecord_sell_ok pos res r h hs hq hp hov] at he
        simp at he
    · exact processRecord_sell_noPosition pos res r h hs hq
  · intro hq hp
    constructor
    · intro he
      by_contra hov
      rw [processRecord_sell_ok pos res r h hs hq hp hov] at he
      simp at he
    · exact processRecord_sell_oversold pos res r h hs hq hp
  · intro e rest he
    exact runRecords_cons_error pos res r rest e he

theorem claim_C2_witness :
    ((processRecord wPos emptyResults wSell =
        .error (.nonPositiveSellQuantity wSell.row.asxCode) ↔
      wSell.row.quantity ≤ 0) ∧
    (¬wSell.row.quantity ≤ 0 →
      (processRecord wPos emptyResults wSell =
          .error (.noExistingPosition wSell.row.asxCode) ↔
        ((wPos wSell.row.asxCode).1 ≤ 0 ∨ (wPos wSell.row.asxCode).2 ≤ 0))) ∧
    (¬wSell.row.quantity ≤ 0 →
      ¬((wPos wSell.row.asxCode).1 ≤ 0 ∨ (wPos wSell.row.asxCode).2 ≤ 0) →
      (processRecord wPos emptyResults wSell =
          .error (.oversoldPosition wSell.row.asxCode) ↔
        wSell.row.quantity - (wPos wSell.row.asxCode).1 > tolQty)) ∧
    (∀ e rest, processRecord wPos emptyResults wSell = .error e →
      runRecords wPos emptyResults (wSell :: rest) = .error e)) :=
  claim_C2 wPos emptyResults wSell (by decide) (by decide)

/-- C7: a record with an empty instrument code, or one classified
neither Buy nor Sell, leaves the whole position state and the whole
result mapping unchanged. -/
theorem claim_C7 (pos : Positions) (res : Results) (r : TradeRec)
    (h : r.row.asxCode = "" ∨
      (isBuy r.row.orderType = false ∧ isSell r.row.orderType = false)) :
    processRecord pos res r = .ok (pos, res) := by
  rcases h with h | ⟨hb, hsl⟩
  · exact processRecord_emptyCode pos res r h
  · exact processRecord_other pos res r hb hsl

theorem claim_C7_witness :
    processRecord wPos emptyResults otherRec = .ok (wPos, emptyResults) :=
  claim_C7 wPos emptyResults otherRec (Or.inr (by constructor <;> decide))

/-- C9: order-kind classification applies no trimming or quote
stripping: a field is Buy or Sell exactly when its case-folded
characters are literally `buy` or `sell`, so `" Buy"` (leading space)
and `"\"Sell\""` (embedded quotes) are classified Other, and such
records neither mutate any position nor produce a result. -/
theorem claim_C9 :
    (isBuy " Buy" = false ∧ isSell " Buy" = false) ∧
    (isBuy "\"Sell\"" = false ∧ isSell "\"Sell\"" = false) ∧
    (∀ s, isBuy s = true ↔ s.data.map Char.toLower = "buy".data) ∧
    (∀ s, isSell s = true ↔ s.data.map Char.toLower = "sell".data) ∧
    (∀ (pos : Positions) (res : Results) (r : TradeRec),
      isBuy r.row.orderType = false → isSell r.row.orderType = false →
      processRecord pos res r = .ok (pos, res)) := by
  refine ⟨⟨by decide, by decide⟩, ⟨by decide, by decide⟩, ?_, ?_, ?_⟩
  · intro s
    simp [isBuy]
  · intro s
    simp [isSell]
  · intro pos res r hb hsl
    exact processRecord_other pos res r hb hsl

theorem claim_C9_witness :
    processRecord wPos emptyResults
      ⟨⟨[], "AAA", " Buy", 0, 1, 1⟩, 0⟩ = .ok (wPos, emptyResults) :=
  claim_C9.2.2.2.2 wPos emptyResults ⟨⟨[], "AAA", " Buy", 0, 1, 1⟩, 0⟩
    (by decide) (by decide)

/-- C10: on every record sequence the checked engine accepts (all sell
validity checks pass), the inline accounting loop of
`calculate_profit_loss.js` produces exactly the same per-position
profit/loss results. -/
theorem claim_C10 (records : List TradeRec) (ci : ColumnInfo) (out : Results)
    (h : calculateProfitLossForRecords records ci = .ok out) :
    calculateProfitLossInline records ci = out := by
  unfold calculateProfitLossForRecords at h
  unfold calculateProfitLossInline
  cases hr : runRecords emptyPositions emptyResults (sortRecords records ci) with
  | error e =>
    rw [hr] at h
    exact absurd h (by simp [Except.map])
  | ok s =>
    rw [hr] at h
    have h2 : s.2 = out := by simpa [Except.map] using h
    rw [runRecordsInline_eq _ _ _ _ hr]
    exact h2

theorem claim_C10_witness :
    calculateProfitLossInline [plainBuyRec] ciNoConf = emptyResults :=
  claim_C10 [plainBuyRec] ciNoConf emptyResults rfl

end ProfitLoss

namespace ProfitLoss

/-- C6: the output is the header row extended by exactly one column
name, followed by exactly one row per input record in original input
order, each being the record's original fields with exactly one appended
field — the rendered result for its `originalPosition`, the empty field
when absent. -/
theorem claim_C6 (headerCols : List String) (records : List TradeRec) (pl : Results) :
    (buildOutputCsv headerCols records pl).length = records.length + 1 ∧
    (buildOutputCsv headerCols records pl).head? =
      some (headerCols ++ ["ProfitLoss"]) ∧
    (headerCols ++ ["ProfitLoss"]).length = headerCols.length + 1 ∧
    (∀ k : Fin records.length,
      (buildOutputCsv headerCols records pl)[k.val + 1]? =
        some ((records.get k).row.cols ++
          [renderResult (pl (records.get k).originalIndex)])) ∧
    (∀ k : Fin records.length,
      ((records.get k).row.cols ++
          [renderResult (pl (records.get k).originalIndex)]).take
        (records.get k).row.cols.length = (records.get k).row.cols ∧
      ((records.get k).row.cols ++
          [renderResult (pl (records.get k).originalIndex)]).length =
        (records.get k).row.cols.length + 1) ∧
    renderResult none = "" := by
  refine ⟨by simp [buildOutputCsv], by simp [buildOutputCsv], by simp, ?_, ?_, rfl⟩
  · intro k
    simp [buildOutputCsv]
  · intro k
    exact ⟨List.take_left _ _, by simp⟩

/-- C8: `toNumber` returns 0 for null and for blank text after removing
quote characters and trimming, returns the parsed decimal otherwise, and
fails with the invalid-number error exactly when the trimmed text is
non-empty and does not parse; `parseTradeDate` returns the epoch
sentinel for blank input, the parsed date otherwise, and fails with the
invalid-date error exactly when non-blank text does not parse. -/
theorem claim_C8 :
    (toNumber none = .ok 0) ∧
    (∀ v, stripQuotesTrim v = [] → toNumber (some v) = .ok 0) ∧
    (∀ v q, parseNumberChars (stripQuotesTrim v) = some q →
      toNumber (some v) = .ok q) ∧
    (∀ v, toNumber (some v) = .error (.invalidNumber v) ↔
      (stripQuotesTrim v ≠ [] ∧ parseNumberChars (stripQuotesTrim v) = none)) ∧
    (parseTradeDate none = .ok 0) ∧
    (∀ v, trimChars v.data = [] → parseTradeDate (some v) = .ok 0) ∧
    (∀ v t, parseDateChars (trimChars v.data) = some t →
      parseTradeDate (some v) = .ok t) ∧
    (∀ v, parseTradeDate (some v) = .error (.invalidDate v) ↔
      (trimChars v.data ≠ [] ∧ parseDateChars (trimChars v.data) = none)) := by
  refine ⟨rfl, ?_, ?_, ?_, rfl, ?_, ?_, ?_⟩
  · intro v h
    simp [toNumber, h]
  · intro v q hpq
    by_cases he : stripQuotesTrim v = []
    · rw [he] at hpq
      exact absurd hpq (by simp [parseNumberChars, parseSign, splitAtExp, parseMantissa])
    · simp [toNumber, he, hpq]
  · intro v
    constructor
    · intro he
      by_cases he2 : stripQuotesTrim v = []
      · simp [toNumber, he2] at he
      · refine ⟨he2, ?_⟩
        cases hp : parseNumberChars (stripQuotesTrim v) with
        | some q => simp [toNumber, he2, hp] at he
        | none => rfl
    · rintro ⟨hne, hnone⟩
      simp [toNumber, hne, hnone]
  · intro v h
    simp [parseTradeDate, h]
  · intro v t hpt
    by_cases he : trimChars v.data = []
    · rw [he] at hpt
      exact absurd hpt (by simp [parseDateChars])
    · simp [parseTradeDate, he, hpt]
  · intro v
    constructor
    · intro he
      by_cases he2 : trimChars v.data = []
      · simp [parseTradeDate, he2] at he
      · refine ⟨he2, ?_⟩
        cases hp : parseDateChars (trimChars v.data) with
        | some t => simp [parseTradeDate, he2, hp] at he
        | none => rfl
    · rintro ⟨hne, hnone⟩
      simp [parseTradeDate, hne, hnone]

theorem claim_C8_witness :
    toNumber (some "\"10.50 \"") = .ok (21 / 2) ∧
    toNumber (some " 42 ") = .ok 42 ∧
    parseTradeDate (some " 2024-01-02 ") = .ok 20240102 := by
  refine ⟨?_, ?_, ?_⟩
  · exact claim_C8.2.2.1 "\"10.50 \"" (21 / 2) (by with_unfolding_all decide)
  · exact claim_C8.2.2.1 " 42 " 42 (by with_unfolding_all decide)
  · exact claim_C8.2.2.2.2.2.2.1 " 2024-01-02 " 20240102 (by decide)

/-- C4: the chronological order sorts by trade date ascending, then —
when the tie-break column exists — by the tie-break field as text
ascending, then by `originalPosition` ascending; when the tie-break
column is absent the only keys are the date and `originalPosition`; on
inputs with pairwise distinct original positions this order is total
and the sorted sequence is the unique sorted permutation of the input. -/
theorem claim_C4 (records : List TradeRec) (ci : ColumnInfo) :
    (sortRecords records ci).Perm records ∧
    List.Sorted (RecLE ci) (sortRecords records ci) ∧
    (∀ a b, RecLE ci a b ↔
      (a.row.tradeDate < b.row.tradeDate ∨
        (a.row.tradeDate = b.row.tradeDate ∧
          (confKey ci a < confKey ci b ∨
            (confKey ci a = confKey ci b ∧ a.originalIndex ≤ b.originalIndex))))) ∧
    (ci.confirmationIdx = none → ∀ a b, RecLE ci a b ↔
      (a.row.tradeDate < b.row.tradeDate ∨
        (a.row.tradeDate = b.row.tradeDate ∧ a.originalIndex ≤ b.originalIndex))) ∧
    ((records.map (fun r => r.originalIndex)).Nodup →
      ∀ l, l.Perm records → List.Sorted (RecLE ci) l → l = sortRecords records ci) := by
  refine ⟨sortRecords_perm records ci, sortRecords_sorted records ci,
    fun a b => Iff.rfl, ?_, ?_⟩
  · intro hnone a b
    simp [RecLE, confKey, rowConf, hnone]
  · intro hnd l hp hsorted
    exact sortRecords_unique records ci hnd l hp hsorted

theorem claim_C4_witness :
    (sortRecords (mkRecords c1Rows) ciNoConf).Perm (mkRecords c1Rows) ∧
    List.Sorted (RecLE ciNoConf) (sortRecords (mkRecords c1Rows) ciNoConf) ∧
    mkRecords c1Rows = sortRecords (mkRecords c1Rows) ciNoConf :=
  ⟨(claim_C4 (mkRecords c1Rows) ciNoConf).1,
   (claim_C4 (mkRecords c1Rows) ciNoConf).2.1,
   (claim_C4 (mkRecords c1Rows) ciNoConf).2.2.2.2 (by decide) (mkRecords c1Rows)
     (List.Perm.refl _) (by decide)⟩

end ProfitLoss

namespace ProfitLoss

theorem sellsWithinHeld_append : ∀ (pre : List TradeRec) (pos : Positions)
    (suf : List TradeRec), sellsWithinHeld pos (pre ++ suf) = true →
    sellsWithinHeld pos pre = true
  | [], _, _, _ => rfl
  | r :: rest, pos, suf, h => by
    rw [List.cons_append] at h
    unfold sellsWithinHeld at h ⊢
    rw [Bool.and_eq_true] at h ⊢
    refine ⟨h.1, ?_⟩
    have h2 := h.2
    cases hpe : processRecord pos emptyResults r with
    | error e => simp only [hpe]
    | ok s =>
      simp only [hpe] at h2 ⊢
      exact sellsWithinHeld_append rest s.1 suf h2

/-- C3 (amended): positions stay non-negative after every processed
record of an accepted run, provided every Buy carries a non-negative
quantity and unit price and no Sell removes more than the quantity then
held (so the `1e-8` oversell tolerance is never exercised). Stated for
every prefix of the chronological sequence the engine processes. -/
theorem claim_C3 (records : List TradeRec) (ci : ColumnInfo)
    (hbuys : buyFieldsNonneg (sortRecords records ci))
    (hsells : sellsWithinHeld emptyPositions (sortRecords records ci) = true)
    (pre suf : List TradeRec) (hsplit : sortRecords records ci = pre ++ suf)
    (pos' : Positions) (res' : Results)
    (hrun : runRecords emptyPositions emptyResults pre = .ok (pos', res')) :
    NonnegState pos' := by
  have hbuys' : buyFieldsNonneg pre := fun r hr hb =>
    hbuys r (by rw [hsplit]; exact List.mem_append_left suf hr) hb
  have hsells' : sellsWithinHeld emptyPositions pre = true := by
    have h2 := hsells
    rw [hsplit] at h2
    exact sellsWithinHeld_append pre emptyPositions suf h2
  exact runRecords_preserves_nonneg pre emptyPositions emptyResults pos' res'
    (fun c => ⟨le_refl 0, le_refl 0⟩) hbuys' hsells' hrun

theorem claim_C3_witness :
    NonnegState (updateAt emptyPositions "AAA"
      ((emptyPositions "AAA").1 + 5, (emptyPositions "AAA").2 + 10 * 5)) :=
  claim_C3 [plainBuyRec] ciNoConf (by decide) (by decide) [plainBuyRec] [] rfl
    (updateAt emptyPositions "AAA"
      ((emptyPositions "AAA").1 + 5, (emptyPositions "AAA").2 + 10 * 5))
    emptyResults rfl

/-- C3 counterexample: the claim as stated fails — a Buy of quantity
`-5` at price `10` is accepted by the engine (the run succeeds and
produces a result array), yet afterwards the position of its instrument
has `heldQuantity = -5 < 0` and `totalCostBasis = -50 < 0`. -/
theorem claim_C3_counterexample :
    (runRecords emptyPositions emptyResults (sortRecords [negBuyRec] ciNoConf)).map
        (fun s => s.1 "NEG") = .ok (-5, -50) ∧
    ¬(0 ≤ (-5 : ℚ)) ∧ ¬(0 ≤ (-50 : ℚ)) ∧
    (calculateProfitLossForRecords [negBuyRec] ciNoConf).map (fun f => f 0) =
      .ok none := by
  have hsort : sortRecords [negBuyRec] ciNoConf = [negBuyRec] := rfl
  refine ⟨?_, by norm_num, by norm_num, ?_⟩
  · rw [hsort,
      runRecords_cons_ok _ _ _ _ _ _ (processRecord_buy _ _ _ (by decide) (by decide)),
      runRecords_nil]
    simp only [Except.map, negBuyRec, updateAt_apply, emptyPositions]
    norm_num
  · unfold calculateProfitLossForRecords
    rw [hsort,
      runRecords_cons_ok _ _ _ _ _ _ (processRecord_buy _ _ _ (by decide) (by decide)),
      runRecords_nil]
    simp [Except.map, emptyResults]

/-- C5 (amended): reordering the input rows without changing any row's
content — in particular its trade date and tie-break value — changes no
computed profit/loss, provided the `(tradeDate, tieBreak)` keys are
pairwise distinct; each row is identified by its content `w`, looked up
at its position in each input, and failing runs fail identically. -/
theorem claim_C5 (rows rows' : List Row) (ci : ColumnInfo) (i j : ℕ) (w : Row)
    (hperm : rows.Perm rows')
    (hkeys : rows.Pairwise (fun u v => rowKey ci u ≠ rowKey ci v))
    (hi : i < rows.length) (hj : j < rows'.length)
    (hwi : rows[i] = w) (hwj : rows'[j] = w) :
    (calculateProfitLossForRecords (mkRecords rows) ci).map (fun f => f i) =
      (calculateProfitLossForRecords (mkRecords rows') ci).map (fun f => f j) :=
  engine_perm_invariant rows rows' ci i j w hperm hkeys hi hj hwi hwj

theorem claim_C5_witness :
    (calculateProfitLossForRecords (mkRecords c1Rows) ciNoConf).map (fun f => f 2) =
      (calculateProfitLossForRecords (mkRecords c1Rows) ciNoConf).map (fun f => f 2) :=
  claim_C5 c1Rows c1Rows ciNoConf 2 2 (mkRow "ABC" "Sell" 3 30 10) (List.Perm.refl _)
    (by decide) (by decide) (by decide) rfl rfl

end ProfitLoss

namespace ProfitLoss

/-- A Sell sharing its trade date with a Buy (no tie-break column). -/
def c5SellRow : Row := mkRow "ABC" "Sell" 1 30 5

/-- Buy at date 0, Buy at date 1, then the Sell also at date 1. -/
def c5RowsA : List Row :=
  [mkRow "ABC" "Buy" 0 10 10, mkRow "ABC" "Buy" 1 20 10, c5SellRow]

/-- The same three rows with the Sell moved before the same-date Buy. -/
def c5RowsB : List Row :=
  [mkRow "ABC" "Buy" 0 10 10, c5SellRow, mkRow "ABC" "Buy" 1 20 10]

/-- C5 counterexample: the claim as stated fails. The two inputs are
permutations of each other leaving every row's trade date and (absent)
tie-break value unchanged, yet the Sell row's computed profit/loss is
`75.00` in one input order and `100.00` in the other, because same-date
ties fall back to the input position. -/
theorem claim_C5_counterexample :
    c5RowsA.Perm c5RowsB ∧
    c5RowsA[2]? = some c5SellRow ∧ c5RowsB[1]? = some c5SellRow ∧
    (calculateProfitLossForRecords (mkRecords c5RowsA) ciNoConf).map (fun f => f 2) =
      .ok (some 7500) ∧
    (calculateProfitLossForRecords (mkRecords c5RowsB) ciNoConf).map (fun f => f 1) =
      .ok (some 10000) ∧
    (some (7500 : ℤ) : Option ℤ) ≠ some 10000 := by
  refine ⟨by with_unfolding_all decide, rfl, rfl, ?_, ?_, by decide⟩
  · have hsort : sortRecords (mkRecords c5RowsA) ciNoConf = mkRecords c5RowsA :=
      List.Sorted.insertionSort_eq (by with_unfolding_all decide)
    unfold calculateProfitLossForRecords
    rw [hsort]
    show ((runRecords emptyPositions emptyResults
        [⟨mkRow "ABC" "Buy" 0 10 10, 0⟩, ⟨mkRow "ABC" "Buy" 1 20 10, 1⟩,
         ⟨c5SellRow, 2⟩]).map (fun s => s.2)).map (fun f => f 2) = .ok (some 7500)
    rw [runRecords_cons_ok _ _ _ _ _ _ (processRecord_buy _ _ _ (by decide) (by decide))]
    rw [runRecords_cons_ok _ _ _ _ _ _ (processRecord_buy _ _ _ (by decide) (by decide))]
    rw [runRecords_cons_ok _ _ _ _ _ _ (processRecord_sell_ok _ _ _ (by decide) (by decide)
          (by norm_num [c5SellRow, mkRow])
          (by norm_num [c5SellRow, mkRow, updateAt_apply, emptyPositions])
          (by norm_num [c5SellRow, mkRow, tolQty, updateAt_apply, emptyPositions]))]
    rw [runRecords_nil]
    simp only [Except.map, c5SellRow, mkRow, writeResult_apply, updateAt_apply,
      emptyPositions]
    norm_num [roundCents, round_eq]
  · have hsort : sortRecords (mkRecords c5RowsB) ciNoConf = mkRecords c5RowsB :=
      List.Sorted.insertionSort_eq (by with_unfolding_all decide)
    unfold calculateProfitLossForRecords
    rw [hsort]
    show ((runRecords emptyPositions emptyResults
        [⟨mkRow "ABC" "Buy" 0 10 10, 0⟩, ⟨c5SellRow, 1⟩,
         ⟨mkRow "ABC" "Buy" 1 20 10, 2⟩]).map (fun s => s.2)).map (fun f => f 1) =
      .ok (some 10000)
    rw [runRecords_cons_ok _ _ _ _ _ _ (processRecord_buy _ _ _ (by decide) (by decide))]
    rw [runRecords_cons_ok _ _ _ _ _ _ (processRecord_sell_ok _ _ _ (by decide) (by decide)
          (by norm_num [c5SellRow, mkRow])
          (by norm_num [c5SellRow, mkRow, updateAt_apply, emptyPositions])
          (by norm_num [c5SellRow, mkRow, tolQty, updateAt_apply, emptyPositions]))]
    rw [runRecords_cons_ok _ _ _ _ _ _ (processRecord_buy _ _ _ (by decide) (by decide))]
    rw [runRecords_nil]
    simp only [Except.map, c5SellRow, mkRow, writeResult_apply, updateAt_apply,
      emptyPositions]
    norm_num [roundCents, round_eq]

end ProfitLoss
